import Mathlib

/-!
Verification development for the `plicVofSolving` component of interPlicFoam.

The development shallowly embeds the solver's data and operations:
scalars become `ℚ`, OpenFOAM lists become Lean `List`s, per-face and
per-cell fields become functions `Nat → ℚ`.  Functions whose bodies appear
inline in `plicVofSolving.H` (the classification predicates,
`clearPlicInterfaceData`, `getRhoPhi`) are translated directly from that
source.  Functions that are only declared there (their definitions live in
compilation units not available here) are modelled from the specification;
each such definition is marked `Modelled from the spec:` in its doc comment.
-/

namespace PlicVof

/-- A PLIC interface plane, `plicInterface`: a unit normal and a scalar offset. -/
structure PlicInterface where
  nx : ℚ
  ny : ℚ
  nz : ℚ
  offset : ℚ
deriving DecidableEq

/-- The part of the mesh read by `clearPlicInterfaceData`: the cell count
`mesh_.nCells()` and the topology-change flag `mesh_.topoChanging()`. -/
structure Mesh where
  nCells : Nat
  topoChanging : Bool

/-- The solver caches and fields touched by the inline member functions of
`plicVofSolving`: the tolerance `surfCellTol_`, the fraction field
`alpha1In_`, the mixed-cell and status lists, the boundary-face storage
`bsFaces_` / `bsUn0_` / `bsInterface0_`, and the two bounding flag arrays. -/
structure Solver where
  surfCellTol : ℚ
  alpha1In : List ℚ
  mixedCells : List Nat
  cellStatus : List Int
  bsFaces : List Nat
  bsUn0 : List ℚ
  bsInterface0 : List PlicInterface
  checkBounding : List Bool
  cellIsBounded : List Bool

/-- Read `alpha1In_[cellI]`. -/
def alphaAt (s : Solver) (cellI : Nat) : ℚ :=
  s.alpha1In.getD cellI 0

/-- The mixed band test on a raw fraction value:
`surfCellTol_ < alpha1 && alpha1 < 1.0 - surfCellTol_`. -/
def mixedBand (tol a : ℚ) : Bool :=
  decide (tol < a) && decide (a < 1 - tol)

/-- The empty band test on a raw fraction value: `alpha1 <= surfCellTol_`. -/
def emptyBand (tol a : ℚ) : Bool :=
  decide (a ≤ tol)

/-- The full band test on a raw fraction value: `alpha1 >= 1.0 - surfCellTol_`. -/
def fullBand (tol a : ℚ) : Bool :=
  decide (1 - tol ≤ a)

/-- `isAMixedCell(cellI)`: `surfCellTol_ < alpha1In_[cellI] && alpha1In_[cellI] < 1.0 - surfCellTol_`. -/
def isAMixedCell (s : Solver) (cellI : Nat) : Bool :=
  mixedBand s.surfCellTol (alphaAt s cellI)

/-- `isAnEmptyCell(cellI)`: `alpha1In_[cellI] <= surfCellTol_`. -/
def isAnEmptyCell (s : Solver) (cellI : Nat) : Bool :=
  emptyBand s.surfCellTol (alphaAt s cellI)

/-- `isAFullCell(cellI)`: `alpha1In_[cellI] >= 1.0 - surfCellTol_`. -/
def isAFullCell (s : Solver) (cellI : Nat) : Bool :=
  fullBand s.surfCellTol (alphaAt s cellI)

/-- OpenFOAM `boolList::resize(n)`: the first `n` existing entries are kept and
any new entries are value-initialised (`false`). -/
def boolListResize (l : List Bool) (n : Nat) : List Bool :=
  l.take n ++ List.replicate (n - l.length) false

/-- OpenFOAM list assignment from a uniform value, `list = v`: every current
entry is overwritten, the length is unchanged. -/
def boolListAssign (l : List Bool) (v : Bool) : List Bool :=
  l.map fun _ => v

/-- `clearPlicInterfaceData()`: clear the five dynamic lists; when
`mesh_.topoChanging()` resize the two flag arrays to `mesh_.nCells()`; then
assign both flag arrays to `false`. -/
def clearPlicInterfaceData (m : Mesh) (s : Solver) : Solver :=
  let s1 : Solver :=
    { s with
      mixedCells := []
      cellStatus := []
      bsFaces := []
      bsUn0 := []
      bsInterface0 := [] }
  let s2 : Solver :=
    if m.topoChanging then
      { s1 with
        checkBounding := boolListResize s1.checkBounding m.nCells
        cellIsBounded := boolListResize s1.cellIsBounded m.nCells }
    else s1
  { s2 with
    checkBounding := boolListAssign s2.checkBounding false
    cellIsBounded := boolListAssign s2.cellIsBounded false }

/-- Modelled from the spec: the body of `getMixedCellList` is not in the
available source (only its declaration is); per the spec the classification
scan tags all cells by the fraction tolerance band and builds the mixed-cell
list as exactly the cells in the strict mixed band. -/
def getMixedCellList (s : Solver) : Solver :=
  { s with
    mixedCells := (List.range s.alpha1In.length).filter fun c => isAMixedCell s c }

/-- The state read by `getRhoPhi`: the per-face transport field `dVf_`, the
per-face flux field `phi_`, and the timestep `mesh_.time().deltaT()`. -/
structure FluxState where
  dVf : Nat → ℚ
  phi : Nat → ℚ
  deltaT : ℚ

/-- A scalar times a surface field, applied per face. -/
def scalarTimesField (a : ℚ) (f : Nat → ℚ) : Nat → ℚ :=
  fun i => a * f i

/-- A surface field divided by a scalar, applied per face. -/
def fieldDivScalar (f : Nat → ℚ) (a : ℚ) : Nat → ℚ :=
  fun i => f i / a

/-- The sum of two surface fields, applied per face. -/
def fieldPlusField (f g : Nat → ℚ) : Nat → ℚ :=
  fun i => f i + g i

/-- `getRhoPhi(rho1, rho2)`: builds the field
`(rho1 - rho2)*dVf_/mesh_.time().deltaT() + rho2*phi_`.  The method is
`const`, so the embedding returns the new field together with the (unchanged)
state it read. -/
def getRhoPhi (st : FluxState) (rho1 rho2 : ℚ) : (Nat → ℚ) × FluxState :=
  (fieldPlusField
      (fieldDivScalar (scalarTimesField (rho1 - rho2) st.dVf) st.deltaT)
      (scalarTimesField rho2 st.phi),
    st)

/-- Helper: assigning `false` over a list yields a replicate of its length. -/
theorem boolListAssign_false (l : List Bool) :
    boolListAssign l false = List.replicate l.length false := by
  induction l with
  | nil => rfl
  | cons a t ih =>
    simp only [boolListAssign, List.map_cons, List.length_cons, List.replicate_succ]
    exact congrArg (List.cons false) ih

/-- Helper: `boolListResize` always produces a list of the requested length. -/
theorem boolListResize_length (l : List Bool) (n : Nat) :
    (boolListResize l n).length = n := by
  simp [boolListResize]
  omega

/-- Helper: the full effect of `clearPlicInterfaceData` on every component. -/
theorem clearPlicInterfaceData_eq (m : Mesh) (s : Solver) :
    clearPlicInterfaceData m s =
      { s with
        mixedCells := []
        cellStatus := []
        bsFaces := []
        bsUn0 := []
        bsInterface0 := []
        checkBounding :=
          List.replicate (if m.topoChanging then m.nCells else s.checkBounding.length) false
        cellIsBounded :=
          List.replicate (if m.topoChanging then m.nCells else s.cellIsBounded.length) false } := by
  unfold clearPlicInterfaceData
  by_cases h : m.topoChanging <;>
    simp [h, boolListAssign_false, boolListResize_length]

/-- C5: a cell is mixed exactly when its fraction lies strictly between the
tolerance bounds, empty when `alpha ≤ surfCellTol`, full when
`alpha ≥ 1 - surfCellTol`; and the mixed-cell list built during
classification contains exactly the cells satisfying the strict mixed
condition. -/
theorem mixed_cell_classification (s : Solver) (c : Nat) :
    (isAMixedCell s c = true ↔
      s.surfCellTol < alphaAt s c ∧ alphaAt s c < 1 - s.surfCellTol) ∧
    (isAnEmptyCell s c = true ↔ alphaAt s c ≤ s.surfCellTol) ∧
    (isAFullCell s c = true ↔ 1 - s.surfCellTol ≤ alphaAt s c) ∧
    (c ∈ (getMixedCellList s).mixedCells ↔
      c < s.alpha1In.length ∧ s.surfCellTol < alphaAt s c ∧
        alphaAt s c < 1 - s.surfCellTol) := by
  refine ⟨?_, ?_, ?_, ?_⟩ <;>
    simp [isAMixedCell, isAnEmptyCell, isAFullCell, mixedBand, emptyBand,
      fullBand, getMixedCellList, List.mem_filter, List.mem_range, and_assoc]

/-- C9: for every tolerance and fraction value at least one of the three
classification bands holds; when `surfCellTol < 1/2` exactly one holds, so
the classification is a partition; and for a tolerance `≥ 1/2` a value can be
simultaneously in the empty and full bands. -/
theorem classification_bands_partition (tol a : ℚ) :
    (emptyBand tol a = true ∨ mixedBand tol a = true ∨ fullBand tol a = true) ∧
    (tol < 1 / 2 →
      ((emptyBand tol a = true ∧ mixedBand tol a = false ∧ fullBand tol a = false) ∨
        (emptyBand tol a = false ∧ mixedBand tol a = true ∧ fullBand tol a = false) ∨
        (emptyBand tol a = false ∧ mixedBand tol a = false ∧ fullBand tol a = true))) ∧
    (∃ tol2 a2 : ℚ, 1 / 2 ≤ tol2 ∧
      emptyBand tol2 a2 = true ∧ fullBand tol2 a2 = true) := by
  refine ⟨?_, ?_, ⟨1 / 2, 1 / 2, by norm_num, by norm_num [emptyBand],
    by norm_num [fullBand]⟩⟩
  · by_cases h1 : a ≤ tol
    · exact Or.inl (by simp [emptyBand, h1])
    · by_cases h2 : a < 1 - tol
      · exact Or.inr (Or.inl (by simp [mixedBand, lt_of_not_le h1, h2]))
      · exact Or.inr (Or.inr (by simp [fullBand, le_of_not_lt h2]))
  · intro htol
    by_cases h1 : a ≤ tol
    · refine Or.inl ⟨by simp [emptyBand, h1], ?_, ?_⟩
      · simp only [mixedBand, Bool.and_eq_false_iff, decide_eq_false_iff_not, not_lt]
        exact Or.inl h1
      · simp only [fullBand, decide_eq_false_iff_not, not_le]
        linarith
    · by_cases h2 : a < 1 - tol
      · refine Or.inr (Or.inl ⟨by simp [emptyBand, h1], ?_, ?_⟩)
        · simp [mixedBand, lt_of_not_le h1, h2]
        · simp only [fullBand, decide_eq_false_iff_not, not_le]
          linarith
      · refine Or.inr (Or.inr ⟨by simp [emptyBand, h1], ?_, ?_⟩)
        · simp only [mixedBand, Bool.and_eq_false_iff, decide_eq_false_iff_not, not_lt]
          exact Or.inr (le_of_not_lt h2)
        · simp [fullBand, le_of_not_lt h2]

/-- Witness for C9 at `tol = 1/4`, `a = 7/8`: the partition hypothesis is
discharged and the value lands in exactly the full band. -/
theorem classification_bands_partition_witness :
    emptyBand (1 / 4) (7 / 8) = false ∧ mixedBand (1 / 4) (7 / 8) = false ∧
      fullBand (1 / 4) (7 / 8) = true := by
  rcases (classification_bands_partition (1 / 4) (7 / 8)).2.1 (by norm_num) with
    h | h | h
  · exact absurd h.1 (by norm_num [emptyBand])
  · exact absurd h.2.1 (by norm_num [mixedBand])
  · exact h

/-- C10: `clearPlicInterfaceData` unconditionally clears the boundary
interface cache and the boundary-face and boundary-speed lists, and
unconditionally resets both bounding flag arrays to all-false even without a
topology change; only the resizing of the two flag arrays to the current cell
count is conditional on `topoChanging`. -/
theorem clearPlicInterfaceData_unconditional (m : Mesh) (s : Solver) :
    (clearPlicInterfaceData m s).mixedCells = [] ∧
    (clearPlicInterfaceData m s).cellStatus = [] ∧
    (clearPlicInterfaceData m s).bsFaces = [] ∧
    (clearPlicInterfaceData m s).bsUn0 = [] ∧
    (clearPlicInterfaceData m s).bsInterface0 = [] ∧
    (clearPlicInterfaceData m s).checkBounding =
      List.replicate (if m.topoChanging then m.nCells else s.checkBounding.length) false ∧
    (clearPlicInterfaceData m s).cellIsBounded =
      List.replicate (if m.topoChanging then m.nCells else s.cellIsBounded.length) false ∧
    (clearPlicInterfaceData m s).alpha1In = s.alpha1In ∧
    (clearPlicInterfaceData m s).surfCellTol = s.surfCellTol := by
  rw [clearPlicInterfaceData_eq]
  exact ⟨rfl, rfl, rfl, rfl, rfl, rfl, rfl, rfl, rfl⟩

/-- C7: on a mesh topology change, all per-cell and per-face caches are
emptied and the bounding flag arrays are resized to the new cell count and
set to all-false, so no stale interface data survives the change. -/
theorem topology_change_clears_caches (m : Mesh) (s : Solver)
    (h : m.topoChanging = true) :
    (clearPlicInterfaceData m s).mixedCells = [] ∧
    (clearPlicInterfaceData m s).cellStatus = [] ∧
    (clearPlicInterfaceData m s).bsFaces = [] ∧
    (clearPlicInterfaceData m s).bsUn0 = [] ∧
    (clearPlicInterfaceData m s).bsInterface0 = [] ∧
    (clearPlicInterfaceData m s).checkBounding = List.replicate m.nCells false ∧
    (clearPlicInterfaceData m s).cellIsBounded = List.replicate m.nCells false := by
  rw [clearPlicInterfaceData_eq]
  simp [h]

/-- A concrete populated solver state used by closed witnesses. -/
def sampleSolver : Solver where
  surfCellTol := 1 / 1000
  alpha1In := [0, 1 / 2, 1]
  mixedCells := [1]
  cellStatus := [-1, 0, 1]
  bsFaces := [3]
  bsUn0 := [2]
  bsInterface0 := [⟨1, 0, 0, 1 / 2⟩]
  checkBounding := [true, true, true]
  cellIsBounded := [false, true, true]

/-- Witness for C7 on a concrete topology-changing mesh with two cells. -/
theorem topology_change_clears_caches_witness :
    (clearPlicInterfaceData ⟨2, true⟩ sampleSolver).bsInterface0 = [] ∧
    (clearPlicInterfaceData ⟨2, true⟩ sampleSolver).checkBounding =
      List.replicate 2 false ∧
    (clearPlicInterfaceData ⟨2, true⟩ sampleSolver).cellIsBounded =
      List.replicate 2 false := by
  have h := topology_change_clears_caches ⟨2, true⟩ sampleSolver rfl
  exact ⟨h.2.2.2.2.1, h.2.2.2.2.2.1, h.2.2.2.2.2.2⟩

/-- Derived classification status of a cell, as the spec's `CellStatus` enum. -/
inductive CellState
  | empty
  | mixed
  | full
deriving DecidableEq

/-- Modelled from the spec: cells are tagged empty, mixed or full by the
fraction tolerance band; the strict mixed band is tested first, the
remaining cells split by the empty and full band tests. -/
def classifyCell (tol a : ℚ) : CellState :=
  if mixedBand tol a then CellState.mixed
  else if emptyBand tol a then CellState.empty
  else CellState.full

/-- Modelled from the spec: the upwind cell of a face is determined by the
sign of the supplied flux; nonnegative flux leaves the owner cell, negative
flux leaves the neighbour cell. -/
def upwindCell (phi : ℚ) (owner neighbour : Nat) : Nat :=
  if 0 ≤ phi then owner else neighbour

/-- Modelled from the spec: the per-face transported reference-fluid volume
for one sub-interval, as computed by `timeIntegratedFlux` for a given upwind
cell.  A full upwind cell transports the entire sub-interval flux
`phi * dt`; an empty one transports zero; a mixed one transports the
geometric clip of the face against the displaced interface plane, the
clipped area times the swept distance `un * dt`.  The clipped-area function
itself belongs to the face-cutting engine, outside the available source, and
is a parameter. -/
def timeIntegratedFluxFace (clipArea : PlicInterface → ℚ → ℚ)
    (tol aUpwind : ℚ) (plane : PlicInterface) (phi un dt : ℚ) : ℚ :=
  match classifyCell tol aUpwind with
  | CellState.full => phi * dt
  | CellState.empty => 0
  | CellState.mixed => clipArea plane (un * dt) * (un * dt)

/-- An internal face of the advection model: its owner and neighbour cells. -/
structure AdvFace where
  owner : Nat
  neighbour : Nat

/-- The static mesh data of the advection model: cell count, cell volumes and
the internal face list. -/
structure AdvMesh where
  nCells : Nat
  vol : Nat → ℚ
  faces : List AdvFace

/-- The inputs of an advection call together with the modelled sub-engines
whose code is outside the available source: the supplied face flux field, the
face-normal velocity field, the timestep, the surface-cell tolerance, the
interface planes reconstructed from the current fraction field, the
clipped-area function of the face-cutting engine, the per-face limiter scale
factors produced by the bounding passes, and the sub-cycle count. -/
structure AdvInputs where
  phi : Nat → ℚ
  un : Nat → ℚ
  dt : ℚ
  tol : ℚ
  planes : (Nat → ℚ) → Nat → PlicInterface
  clipArea : PlicInterface → ℚ → ℚ
  limiterScale : (Nat → ℚ) → Nat → ℚ
  nSub : Nat

/-- Modelled from the spec: the raw per-face transports of one sub-cycle,
computed from the current fraction field with the upwind convention. -/
def subCycleRawDVf (m : AdvMesh) (inp : AdvInputs) (alpha : Nat → ℚ)
    (dtSub : ℚ) (f : Nat) : ℚ :=
  match m.faces.get? f with
  | some face =>
      timeIntegratedFluxFace inp.clipArea inp.tol
        (alpha (upwindCell (inp.phi f) face.owner face.neighbour))
        (inp.planes alpha (upwindCell (inp.phi f) face.owner face.neighbour))
        (inp.phi f) (inp.un f) dtSub
  | none => 0

/-- Modelled from the spec: `limitFluxes` scales down the magnitude of face
transports proportionally; each face transport is multiplied by the scale
factor derived from the bounding passes. -/
def limitFluxes (scale : Nat → ℚ) (dVf : Nat → ℚ) : Nat → ℚ :=
  fun f => scale f * dVf f

/-- Modelled from the spec and the declaration of `netFlux`: the total volume
leaving a cell is the signed sum of its face transports, counted positively
on faces the cell owns and negatively on faces where it is the neighbour. -/
def netFlux (m : AdvMesh) (dVf : Nat → ℚ) (cellI : Nat) : ℚ :=
  ((List.range m.faces.length).map fun f =>
    match m.faces.get? f with
    | some face =>
        if face.owner = cellI then dVf f
        else if face.neighbour = cellI then -dVf f
        else 0
    | none => 0).sum

/-- Modelled from the spec: one advection sub-cycle computes the raw face
transports from the current fraction field, limits them, updates the
fraction field in place by each cell's net transport divided by its volume,
and accumulates the limited transports into the running per-face totals. -/
def advectionSubCycle (m : AdvMesh) (inp : AdvInputs) (dtSub : ℚ)
    (st : (Nat → ℚ) × (Nat → ℚ)) : (Nat → ℚ) × (Nat → ℚ) :=
  let dVf := limitFluxes (inp.limiterScale st.1) (subCycleRawDVf m inp st.1 dtSub)
  (fun c => st.1 c - netFlux m dVf c / m.vol c, fun f => st.2 f + dVf f)

/-- Modelled from the spec: the sub-cycle loop covering the timestep. -/
def advectionLoop (m : AdvMesh) (inp : AdvInputs) (dtSub : ℚ) :
    Nat → (Nat → ℚ) × (Nat → ℚ) → (Nat → ℚ) × (Nat → ℚ)
  | 0, st => st
  | n + 1, st => advectionLoop m inp dtSub n (advectionSubCycle m inp dtSub st)

/-- Modelled from the spec: `applyBruteForceBounding` is the unconditional
last-resort clamp of the fraction field to the interval [0, 1]. -/
def applyBruteForceBounding (alpha : Nat → ℚ) : Nat → ℚ :=
  fun c => max 0 (min 1 (alpha c))

/-- Modelled from the spec: a full `advection` call runs the sub-cycles over
the whole timestep, starting from a zero per-face accumulator, and finishes
with the brute-force bounding; it returns the final fraction field together
with the accumulated per-face transports. -/
def advection (m : AdvMesh) (inp : AdvInputs) (alpha0 : Nat → ℚ) :
    (Nat → ℚ) × (Nat → ℚ) :=
  let st := advectionLoop m inp (inp.dt / (inp.nSub : ℚ)) inp.nSub (alpha0, fun _ => 0)
  (applyBruteForceBounding st.1, st.2)

/-- Modelled from the spec: `syncProcPatches` exchanges the two locally
computed transports of a shared decomposition-boundary face and each side
adopts the value computed by the side owning the upwind cell; side `a` holds
the face's owner cell, so nonnegative flux makes side `a` the upwind owner. -/
def syncProcPatches (phi va vb : ℚ) : ℚ × ℚ :=
  if 0 ≤ phi then (va, va) else (vb, vb)

/-- C8: `getRhoPhi(rho1, rho2)` returns, per face,
`(rho1 - rho2) * dVf / deltaT + rho2 * phi`, and does not modify any solver
state. -/
theorem getRhoPhi_formula (st : FluxState) (rho1 rho2 : ℚ) :
    (∀ f, (getRhoPhi st rho1 rho2).1 f =
      (rho1 - rho2) * st.dVf f / st.deltaT + rho2 * st.phi f) ∧
    (getRhoPhi st rho1 rho2).2 = st :=
  ⟨fun _ => rfl, rfl⟩

/-- Helper: the per-face transport vanishes when both the flux and the
normal velocity vanish, whatever the upwind cell's classification. -/
theorem timeIntegratedFluxFace_zero (clip : PlicInterface → ℚ → ℚ)
    (tol a : ℚ) (plane : PlicInterface) (dt : ℚ) :
    timeIntegratedFluxFace clip tol a plane 0 0 dt = 0 := by
  unfold timeIntegratedFluxFace
  cases classifyCell tol a <;> simp

/-- Helper: a raw sub-cycle transport vanishes at a face with zero flux and
zero normal velocity. -/
theorem subCycleRawDVf_zero (m : AdvMesh) (inp : AdvInputs) (alpha : Nat → ℚ)
    (dtSub : ℚ) (f : Nat) (hphi : inp.phi f = 0) (hun : inp.un f = 0) :
    subCycleRawDVf m inp alpha dtSub f = 0 := by
  unfold subCycleRawDVf
  rw [hphi, hun]
  cases m.faces.get? f with
  | none => rfl
  | some face => exact timeIntegratedFluxFace_zero _ _ _ _ _

/-- Helper: the net flux out of any cell vanishes when every face transport
vanishes. -/
theorem netFlux_zero (m : AdvMesh) (dVf : Nat → ℚ) (c : Nat)
    (h : ∀ f, dVf f = 0) : netFlux m dVf c = 0 := by
  unfold netFlux
  refine List.sum_eq_zero ?_
  intro x hx
  simp only [List.mem_map] at hx
  obtain ⟨f, _, rfl⟩ := hx
  cases m.faces.get? f with
  | none => rfl
  | some face =>
    by_cases h1 : face.owner = c <;> by_cases h2 : face.neighbour = c <;>
      simp [h1, h2, h f]

/-- Helper: with zero flux and velocity fields, the sub-cycle loop leaves the
fraction field pointwise unchanged and the accumulator pointwise zero. -/
theorem advectionLoop_zero_fields (m : AdvMesh) (inp : AdvInputs) (dtSub : ℚ)
    (hphi : ∀ f, inp.phi f = 0) (hun : ∀ f, inp.un f = 0) :
    ∀ (n : Nat) (alpha acc : Nat → ℚ), (∀ f, acc f = 0) →
      (∀ c, (advectionLoop m inp dtSub n (alpha, acc)).1 c = alpha c) ∧
      (∀ f, (advectionLoop m inp dtSub n (alpha, acc)).2 f = 0) := by
  intro n
  induction n with
  | zero => exact fun alpha acc hacc => ⟨fun _ => rfl, hacc⟩
  | succ k ih =>
    intro alpha acc hacc
    have hdv : ∀ f,
        limitFluxes (inp.limiterScale alpha) (subCycleRawDVf m inp alpha dtSub) f = 0 := by
      intro f
      unfold limitFluxes
      rw [subCycleRawDVf_zero m inp alpha dtSub f (hphi f) (hun f), mul_zero]
    have hstep : advectionLoop m inp dtSub (k + 1) (alpha, acc) =
        advectionLoop m inp dtSub k (advectionSubCycle m inp dtSub (alpha, acc)) := rfl
    have hkey := ih (advectionSubCycle m inp dtSub (alpha, acc)).1
        (advectionSubCycle m inp dtSub (alpha, acc)).2
        (fun f => by
          show acc f + _ = 0
          rw [hacc f, hdv f, add_zero])
    rw [hstep]
    constructor
    · intro c
      rw [hkey.1 c]
      show alpha c - netFlux m _ c / m.vol c = alpha c
      rw [netFlux_zero m _ c hdv, zero_div, sub_zero]
    · exact hkey.2

/-- C1: after a completed advection call, covering the sub-cycles with their
limiter scaling and ending with the final brute-force bounding, every cell's
volume-fraction value lies in [0, 1]. -/
theorem fraction_bounded_after_advection (m : AdvMesh) (inp : AdvInputs)
    (alpha0 : Nat → ℚ) (c : Nat) :
    0 ≤ (advection m inp alpha0).1 c ∧ (advection m inp alpha0).1 c ≤ 1 := by
  show 0 ≤ applyBruteForceBounding _ c ∧ applyBruteForceBounding _ c ≤ 1
  unfold applyBruteForceBounding
  exact ⟨le_max_left 0 _, max_le (by norm_num) (min_le_left 1 _)⟩

/-- C4: when the supplied flux and velocity fields are identically zero, a
full advection call yields zero transport on every face and leaves the
fraction field unchanged cell by cell (the field lying in [0, 1] as the data
model prescribes for the volume-fraction field). -/
theorem zero_velocity_invariance (m : AdvMesh) (inp : AdvInputs)
    (alpha0 : Nat → ℚ)
    (hphi : ∀ f, inp.phi f = 0) (hun : ∀ f, inp.un f = 0)
    (halpha : ∀ c, 0 ≤ alpha0 c ∧ alpha0 c ≤ 1) :
    (∀ f, (advection m inp alpha0).2 f = 0) ∧
    (∀ c, (advection m inp alpha0).1 c = alpha0 c) := by
  have h := advectionLoop_zero_fields m inp (inp.dt / (inp.nSub : ℚ)) hphi hun
      inp.nSub alpha0 (fun _ => 0) (fun _ => rfl)
  refine ⟨h.2, fun c => ?_⟩
  show applyBruteForceBounding
      (advectionLoop m inp (inp.dt / (inp.nSub : ℚ)) inp.nSub (alpha0, fun _ => 0)).1 c =
    alpha0 c
  unfold applyBruteForceBounding
  rw [h.1 c, min_eq_right (halpha c).2, max_eq_right (halpha c).1]

/-- A two-cell, one-face mesh used by the closed advection witnesses. -/
def advMeshW : AdvMesh :=
  ⟨2, fun _ => 1, [⟨0, 1⟩]⟩

/-- Identically zero flux and velocity inputs on `advMeshW`. -/
def advInputsZeroW : AdvInputs where
  phi := fun _ => 0
  un := fun _ => 0
  dt := 1
  tol := 1 / 1000
  planes := fun _ _ => ⟨1, 0, 0, 0⟩
  clipArea := fun _ _ => 0
  limiterScale := fun _ _ => 1
  nSub := 2

/-- A concrete bounded fraction field on `advMeshW`. -/
def alphaW : Nat → ℚ :=
  fun c => if c = 0 then 1 / 2 else 1

/-- Witness for C4 on the concrete two-cell mesh with zero fields. -/
theorem zero_velocity_invariance_witness :
    (advection advMeshW advInputsZeroW alphaW).2 0 = 0 ∧
    (advection advMeshW advInputsZeroW alphaW).1 0 = alphaW 0 := by
  have h := zero_velocity_invariance advMeshW advInputsZeroW alphaW
      (fun _ => rfl) (fun _ => rfl)
      (fun c => by unfold alphaW; by_cases hc : c = 0 <;> norm_num [hc])
  exact ⟨h.1 0, h.2 0⟩

/-- C3: during flux integration, a face whose upwind cell (selected by the
sign of the supplied flux) is classified full transports the entire
sub-interval flux `phi * dtSub`, and one whose upwind cell is classified
empty transports zero. -/
theorem full_empty_face_shortcut (m : AdvMesh) (inp : AdvInputs)
    (alpha : Nat → ℚ) (dtSub : ℚ) (f : Nat) (face : AdvFace)
    (hf : m.faces.get? f = some face) :
    (classifyCell inp.tol
        (alpha (upwindCell (inp.phi f) face.owner face.neighbour)) =
        CellState.full →
      subCycleRawDVf m inp alpha dtSub f = inp.phi f * dtSub) ∧
    (classifyCell inp.tol
        (alpha (upwindCell (inp.phi f) face.owner face.neighbour)) =
        CellState.empty →
      subCycleRawDVf m inp alpha dtSub f = 0) := by
  unfold subCycleRawDVf timeIntegratedFluxFace
  rw [hf]
  constructor <;> intro h <;> simp [h]

/-- Inputs with a positive uniform flux on `advMeshW`, for the C3 witness. -/
def advInputsFluxW : AdvInputs where
  phi := fun _ => 2
  un := fun _ => 1
  dt := 1
  tol := 1 / 100
  planes := fun _ _ => ⟨1, 0, 0, 0⟩
  clipArea := fun _ _ => 0
  limiterScale := fun _ _ => 1
  nSub := 1

/-- Witness for C3: on the concrete mesh, a full upwind cell transports the
whole sub-interval flux and an empty upwind cell transports zero. -/
theorem full_empty_face_shortcut_witness :
    subCycleRawDVf advMeshW advInputsFluxW (fun _ => 1) (1 / 2) 0 = 2 * (1 / 2) ∧
    subCycleRawDVf advMeshW advInputsFluxW (fun _ => 0) (1 / 2) 0 = 0 := by
  constructor
  · exact (full_empty_face_shortcut advMeshW advInputsFluxW (fun _ => 1) (1 / 2)
      0 ⟨0, 1⟩ rfl).1
      (by norm_num [classifyCell, mixedBand, emptyBand, advInputsFluxW])
  · exact (full_empty_face_shortcut advMeshW advInputsFluxW (fun _ => 0) (1 / 2)
      0 ⟨0, 1⟩ rfl).2
      (by norm_num [classifyCell, mixedBand, emptyBand, advInputsFluxW])

/-- C6: after synchronization, both partitions hold the single transport
value computed by the side owning the upwind cell, and since the
upwind-owning side's local face data agree with the undivided mesh's data,
that value is exactly what the undivided run computes for the face. -/
theorem proc_patch_sync_agreement (clip : PlicInterface → ℚ → ℚ)
    (tol aUpG aUpA aUpB : ℚ) (planeG planeA planeB : PlicInterface)
    (phi un dt : ℚ)
    (hA : 0 ≤ phi → aUpA = aUpG ∧ planeA = planeG)
    (hB : ¬ 0 ≤ phi → aUpB = aUpG ∧ planeB = planeG) :
    syncProcPatches phi
        (timeIntegratedFluxFace clip tol aUpA planeA phi un dt)
        (timeIntegratedFluxFace clip tol aUpB planeB phi un dt) =
      (timeIntegratedFluxFace clip tol aUpG planeG phi un dt,
        timeIntegratedFluxFace clip tol aUpG planeG phi un dt) := by
  unfold syncProcPatches
  by_cases h : 0 ≤ phi
  · obtain ⟨h1, h2⟩ := hA h
    simp [h, h1, h2]
  · obtain ⟨h1, h2⟩ := hB h
    simp [h, h1, h2]

/-- Witness for C6 at a concrete shared face with positive flux: side `a`
owns the upwind cell, its data agree with the global data, and both sides
end up with the undivided value. -/
theorem proc_patch_sync_agreement_witness :
    syncProcPatches 1
        (timeIntegratedFluxFace (fun _ _ => 0) (1 / 100) (3 / 4) ⟨1, 0, 0, 0⟩ 1 1 1)
        (timeIntegratedFluxFace (fun _ _ => 0) (1 / 100) 0 ⟨0, 1, 0, 5⟩ 1 1 1) =
      (timeIntegratedFluxFace (fun _ _ => 0) (1 / 100) (3 / 4) ⟨1, 0, 0, 0⟩ 1 1 1,
        timeIntegratedFluxFace (fun _ _ => 0) (1 / 100) (3 / 4) ⟨1, 0, 0, 0⟩ 1 1 1) := by
  have h := proc_patch_sync_agreement (fun _ _ => 0) (1 / 100) (3 / 4) (3 / 4) 0
      ⟨1, 0, 0, 0⟩ ⟨1, 0, 0, 0⟩ ⟨0, 1, 0, 5⟩ 1 1 1
      (fun _ => ⟨rfl, rfl⟩) (fun hneg => absurd (by norm_num) hneg)
  exact h

/-- Modelled from the spec: the cell-cutting engine `plicCutCell_` treats the
mapping from plane offset (along a fixed unit normal) to enclosed sub-volume
fraction of the polyhedron as a monotonically non-decreasing, piecewise
function of the offset.  Its code is outside the available source and the
exact closed-form per-segment expression of the cited analytical method is
not reproduced in the spec, so a cell-and-normal pair is represented by the
breakpoints of that cumulative mapping, each segment carrying its own
closed-form expression (represented per segment by its endpoint values). -/
def lastPoint : List (ℚ × ℚ) → ℚ × ℚ
  | [] => (0, 0)
  | [p] => p
  | _ :: q :: rest => lastPoint (q :: rest)

/-- A valid breakpoint list: strictly increasing offsets and strictly
increasing enclosed fractions from one breakpoint to the next. -/
def strictChain : List (ℚ × ℚ) → Prop
  | [] => True
  | [_] => True
  | p :: q :: rest => p.1 < q.1 ∧ p.2 < q.2 ∧ strictChain (q :: rest)

/-- Modelled from the spec: evaluating the enclosed reference-fluid fraction
of the plane at a given offset locates the offset's segment of the
cumulative mapping and evaluates that segment's closed form. -/
def enclosedFraction : List (ℚ × ℚ) → ℚ → ℚ
  | p :: q :: rest, w =>
    if w ≤ q.1 then p.2 + (w - p.1) * (q.2 - p.2) / (q.1 - p.1)
    else enclosedFraction (q :: rest) w
  | _, _ => 0

/-- Modelled from the spec: fitting the interface plane for a target
fraction locates the target's segment of the cumulative mapping and inverts
that segment's closed form (the spec's preferred per-segment closed-form
inversion of the `reconstruction` step). -/
def fitPlaneOffset : List (ℚ × ℚ) → ℚ → ℚ
  | p :: q :: rest, t =>
    if t ≤ q.2 then p.1 + (t - p.2) * (q.1 - p.1) / (q.2 - p.2)
    else fitPlaneOffset (q :: rest) t
  | _, _ => 0

/-- Helper: along a valid chain, the last breakpoint dominates the head in
both coordinates. -/
theorem lastPoint_ge : ∀ (l : List (ℚ × ℚ)) (p : ℚ × ℚ),
    strictChain (p :: l) →
    p.1 ≤ (lastPoint (p :: l)).1 ∧ p.2 ≤ (lastPoint (p :: l)).2 := by
  intro l
  induction l with
  | nil => exact fun p _ => ⟨le_refl _, le_refl _⟩
  | cons q rest ih =>
    intro p h
    simp only [strictChain] at h
    obtain ⟨hx, hy, hrest⟩ := h
    have := ih q hrest
    exact ⟨le_of_lt (lt_of_lt_of_le hx this.1), le_of_lt (lt_of_lt_of_le hy this.2)⟩

/-- Helper: closed-form inversion of one segment lands strictly inside the
segment and evaluates back to the target exactly. -/
theorem segment_roundtrip (x1 y1 x2 y2 t : ℚ) (hx : x1 < x2) (hy : y1 < y2)
    (ht1 : y1 < t) (ht2 : t ≤ y2) :
    x1 < x1 + (t - y1) * (x2 - x1) / (y2 - y1) ∧
    x1 + (t - y1) * (x2 - x1) / (y2 - y1) ≤ x2 ∧
    y1 + (x1 + (t - y1) * (x2 - x1) / (y2 - y1) - x1) * (y2 - y1) / (x2 - x1) = t := by
  have hx0 : (0 : ℚ) < x2 - x1 := by linarith
  have hy0 : (0 : ℚ) < y2 - y1 := by linarith
  refine ⟨?_, ?_, ?_⟩
  · have hpos : 0 < (t - y1) * (x2 - x1) / (y2 - y1) :=
      div_pos (mul_pos (by linarith) hx0) hy0
    linarith
  · have hle : (t - y1) * (x2 - x1) / (y2 - y1) ≤ x2 - x1 := by
      rw [div_le_iff₀ hy0]
      nlinarith
    linarith
  · have h1 : x2 - x1 ≠ 0 := ne_of_gt hx0
    have h2 : y2 - y1 ≠ 0 := ne_of_gt hy0
    field_simp
    ring

/-- Helper: one-step unfolding of `enclosedFraction` on a two-head chain. -/
theorem enclosedFraction_cons (p q : ℚ × ℚ) (rest : List (ℚ × ℚ)) (w : ℚ) :
    enclosedFraction (p :: q :: rest) w =
      if w ≤ q.1 then p.2 + (w - p.1) * (q.2 - p.2) / (q.1 - p.1)
      else enclosedFraction (q :: rest) w := rfl

/-- Helper: one-step unfolding of `fitPlaneOffset` on a two-head chain. -/
theorem fitPlaneOffset_cons (p q : ℚ × ℚ) (rest : List (ℚ × ℚ)) (t : ℚ) :
    fitPlaneOffset (p :: q :: rest) t =
      if t ≤ q.2 then p.1 + (t - p.2) * (q.1 - p.1) / (q.2 - p.2)
      else fitPlaneOffset (q :: rest) t := rfl

/-- Helper: along any valid chain whose head fraction is strictly below the
target and whose last fraction dominates it, the fitted offset lies inside
the chain's offset span and evaluates back to the target exactly. -/
theorem fit_roundtrip_aux :
    ∀ (rest : List (ℚ × ℚ)) (p q : ℚ × ℚ) (t : ℚ),
      strictChain (p :: q :: rest) → p.2 < t →
      t ≤ (lastPoint (p :: q :: rest)).2 →
      p.1 < fitPlaneOffset (p :: q :: rest) t ∧
      fitPlaneOffset (p :: q :: rest) t ≤ (lastPoint (p :: q :: rest)).1 ∧
      enclosedFraction (p :: q :: rest) (fitPlaneOffset (p :: q :: rest) t) = t := by
  intro rest
  induction rest with
  | nil =>
    intro p q t hch ht1 ht2
    simp only [strictChain] at hch
    obtain ⟨hx, hy, -⟩ := hch
    have hlast : lastPoint (p :: q :: ([] : List (ℚ × ℚ))) = q := rfl
    rw [hlast] at ht2 ⊢
    have hseg := segment_roundtrip p.1 p.2 q.1 q.2 t hx hy ht1 ht2
    rw [fitPlaneOffset_cons, if_pos ht2]
    refine ⟨hseg.1, hseg.2.1, ?_⟩
    rw [enclosedFraction_cons, if_pos hseg.2.1]
    exact hseg.2.2
  | cons r rest ih =>
    intro p q t hch ht1 ht2
    simp only [strictChain] at hch
    obtain ⟨hx, hy, hrest⟩ := hch
    have hlast : lastPoint (p :: q :: r :: rest) = lastPoint (q :: r :: rest) := rfl
    rw [hlast] at ht2 ⊢
    by_cases ht : t ≤ q.2
    · have hseg := segment_roundtrip p.1 p.2 q.1 q.2 t hx hy ht1 ht
      rw [fitPlaneOffset_cons, if_pos ht]
      have hqlast := lastPoint_ge (r :: rest) q hrest
      refine ⟨hseg.1, le_trans hseg.2.1 hqlast.1, ?_⟩
      rw [enclosedFraction_cons, if_pos hseg.2.1]
      exact hseg.2.2
    · have ht' : q.2 < t := lt_of_not_le ht
      have hkey := ih q r t hrest ht' ht2
      rw [fitPlaneOffset_cons, if_neg ht]
      have hgt : ¬ fitPlaneOffset (q :: r :: rest) t ≤ q.1 := not_le.mpr hkey.1
      refine ⟨lt_trans hx hkey.1, hkey.2.1, ?_⟩
      rw [enclosedFraction_cons, if_neg hgt]
      exact hkey.2.2

/-- C2: for every cell-and-normal cumulative volume mapping (a valid
breakpoint chain running from enclosed fraction 0 up to 1) and every target
fraction in the open mixed band, fitting the interface plane and then
computing the enclosed fraction of that plane in the same cell returns the
original target — exactly, hence within any nonnegative relative fit
tolerance such as 1e-8. -/
theorem plane_fit_roundtrip (p q : ℚ × ℚ) (rest : List (ℚ × ℚ))
    (t tolRel : ℚ) (hch : strictChain (p :: q :: rest))
    (h0 : p.2 = 0) (h1 : (lastPoint (p :: q :: rest)).2 = 1)
    (ht0 : 0 < t) (ht1 : t < 1) (htol : 0 ≤ tolRel) :
    enclosedFraction (p :: q :: rest) (fitPlaneOffset (p :: q :: rest) t) = t ∧
    |enclosedFraction (p :: q :: rest) (fitPlaneOffset (p :: q :: rest) t) - t| ≤
      tolRel * |t| := by
  have h := fit_roundtrip_aux rest p q t hch (by rw [h0]; exact ht0)
    (by rw [h1]; exact le_of_lt ht1)
  refine ⟨h.2.2, ?_⟩
  rw [h.2.2, sub_self, abs_zero]
  positivity

/-- Witness for C2 on the unit cube cut along a coordinate axis, whose
cumulative mapping runs linearly from (0, 0) to (1, 1), with target 1/3 and
relative tolerance 1e-8. -/
theorem plane_fit_roundtrip_witness :
    enclosedFraction [((0 : ℚ), (0 : ℚ)), (1, 1)]
        (fitPlaneOffset [((0 : ℚ), (0 : ℚ)), (1, 1)] (1 / 3)) = 1 / 3 ∧
    |enclosedFraction [((0 : ℚ), (0 : ℚ)), (1, 1)]
        (fitPlaneOffset [((0 : ℚ), (0 : ℚ)), (1, 1)] (1 / 3)) - 1 / 3| ≤
      1 / 100000000 * |(1 : ℚ) / 3| :=
  plane_fit_roundtrip (0, 0) (1, 1) [] (1 / 3) (1 / 100000000)
    (by norm_num [strictChain]) rfl rfl (by norm_num) (by norm_num) (by norm_num)

end PlicVof
